import Mathlib

/-!
Shallow embedding of the vscode-phpstan extension (src/extension.ts and
src/utils.ts).  The extension invokes phpstan as a subprocess, parses its
JSON report and publishes per-file diagnostics into a diagnostic store
(the vscode DiagnosticCollection, modelled here as an association list
from file-path keys to diagnostic lists).

The embedding covers:
  - the configuration snapshot (utils.ts config keys),
  - the report data model (files mapping, messages, totals.file_errors),
  - the violation-to-diagnostic mapping of processOutput,
  - the JS first-occurrence string replacement used for the docker path
    remapping and for prepareCommand,
  - handle (whole-project replace path, status message),
  - the post-subprocess control flow of runAnalysis, including the
    classification of execa results and the single-file delete bookkeeping,
  - traces of completed analysis passes for store invariants.
-/

def PACKAGE_NAME : String := "phpstan"

def PACKAGE_TITLE : String := "Phpstan"

/-- Configuration snapshot read through utils.config.get. -/
structure Config where
  phpCommand : String
  command : String
  watchGlob : String
  dockerVolumePath : String
deriving DecidableEq

/-- One entry of a files[path].messages array in the phpstan JSON report. -/
structure Violation where
  message : String
  line : Int
  identifier : String
  ignorable : Bool
deriving DecidableEq

/-- One value of the files mapping; messages is none when the object has no
messages field (the code guards with a membership test on the field). -/
structure FileResult where
  messages : Option (List Violation)
deriving DecidableEq

/-- The parsed JSON report as runAnalysis sees it after JSON.parse: the files
mapping may be absent (files = none), in which case the access
Object.keys(output.files) throws a TypeError. -/
structure RawOutput where
  files : Option (List (String × FileResult))
  totalsFileErrors : Option Int
deriving DecidableEq

/-- vscode.DiagnosticSeverity. -/
inductive Severity where
  | error
  | warning
  | info
  | hint
deriving DecidableEq

/-- A vscode.Diagnostic as built by processOutput: a range, a message, a
severity, the source label, and the code value with its target link. -/
structure Diagnostic where
  startLine : Int
  startChar : Nat
  endLine : Int
  endChar : Nat
  message : String
  severity : Severity
  source : String
  codeValue : String
  codeTarget : String
deriving DecidableEq

/-- The diagnostic store: the DiagnosticCollection keyed by file path. -/
abbrev Store := List (String × List Diagnostic)

/-- diagnosticCollection.has. -/
def storeHas (s : Store) (k : String) : Bool :=
  s.any (fun q => q.1 == k)

/-- Lookup of the diagnostics currently published for a key. -/
def storeGet (s : Store) (k : String) : Option (List Diagnostic) :=
  (s.find? (fun q => q.1 == k)).map (fun q => q.2)

/-- diagnosticCollection.set (also Map.prototype.set): overwrite the entry in
place when the key is present, append it otherwise. -/
def storeSet : Store → String → List Diagnostic → Store
  | [], k, v => [(k, v)]
  | q :: rest, k, v => if q.1 == k then (k, v) :: rest else q :: storeSet rest k v

/-- diagnosticCollection.delete. -/
def storeDelete (s : Store) (k : String) : Store :=
  s.filter (fun q => q.1 != k)

/-- Every published entry carries a nonempty diagnostic list. -/
def storeAllNonempty (s : Store) : Prop :=
  ∀ q ∈ s, q.2 ≠ []

/-- Decides whether the pattern is an initial segment of the text. -/
def leadsWith : List Char → List Char → Bool
  | [], _ => true
  | _ :: _, [] => false
  | p :: ps, c :: cs => p == c && leadsWith ps cs

/-- Scan of JavaScript String.prototype.replace with a nonempty string
pattern: rewrite the leftmost occurrence only, leave the text unchanged when
the pattern does not occur. -/
def replFirstAux (pat repl : List Char) : List Char → List Char
  | [] => []
  | c :: cs =>
    if leadsWith pat (c :: cs) then repl ++ (c :: cs).drop pat.length
    else c :: replFirstAux pat repl cs

/-- JavaScript s.replace(pat, repl) for string patterns: first occurrence
only; the empty pattern matches at index 0, so the replacement is prepended. -/
def jsReplaceFirst (s pat repl : String) : String :=
  if pat.data.isEmpty then repl ++ s
  else String.mk (replFirstAux pat.data repl.data s.data)

/-- Decides whether the suffix ends the string. -/
def strEndsWith (s suff : String) : Bool :=
  leadsWith suff.data.reverse s.data.reverse

/-- The diagnostic built for one message inside processOutput: zero-based line
max(0, line - 1), columns 0 to message length on that line, severity error,
fixed source label, and the identifier templated into the phpstan
error-identifiers URL. -/
def violationToDiagnostic (v : Violation) : Diagnostic :=
  ⟨max 0 (v.line - 1), 0, max 0 (v.line - 1), v.message.length, v.message,
   Severity.error, PACKAGE_TITLE, v.identifier,
   "https://phpstan.org/error-identifiers/" ++ v.identifier⟩

/-- The fileDiagnostics array built for one files entry: empty when the entry
has no messages field, otherwise one diagnostic per message in order. -/
def fileDiagnostics (fr : FileResult) : List Diagnostic :=
  match fr.messages with
  | none => []
  | some msgs => msgs.map violationToDiagnostic

/-- One step of the loop in processOutput that fills diagnosticsByFile: only a
file with at least one diagnostic is inserted, under its path with the
configured dockerVolumePath value replaced by the workspace root. -/
def byFileStep (cfg : Config) (ws : String) (m : Store) (q : String × FileResult) : Store :=
  if 0 < (fileDiagnostics q.2).length then
    storeSet m (jsReplaceFirst q.1 cfg.dockerVolumePath ws) (fileDiagnostics q.2)
  else m

/-- The diagnosticsByFile map built by processOutput. -/
def diagnosticsByFile (cfg : Config) (ws : String)
    (files : List (String × FileResult)) : Store :=
  files.foldl (byFileStep cfg ws) []

/-- The final loop of processOutput: publish every collected entry into the
diagnostic store. -/
def insertAll (s : Store) (l : Store) : Store :=
  l.foldl (fun acc q => storeSet acc q.1 q.2) s

/-- processOutput: resolve false at once on an empty files mapping, otherwise
publish the collected per-file diagnostics and resolve true. -/
def processOutput (cfg : Config) (ws : String) (store : Store)
    (files : List (String × FileResult)) : Store × Bool :=
  if files.isEmpty then (store, false)
  else (insertAll store (diagnosticsByFile cfg ws files), true)

/-- handle: clear the whole store, derive the status message from
totals.file_errors (0 or absent gives done, a positive count gives
found N violations), then run processOutput on the cleared store. -/
def handle (cfg : Config) (ws : String) (_store : Store)
    (files : List (String × FileResult)) (totalsFileErrors : Option Int) :
    Store × String :=
  let violationCount := totalsFileErrors.getD 0
  let msg :=
    if 0 < violationCount then "found " ++ toString violationCount ++ " violations"
    else "done"
  ((processOutput cfg ws [] files).1, msg)

/-- prepareCommand: phpCommand and command, plus for a single file the path
with the workspace root occurrence replaced by a dot. -/
def prepareCommand (cfg : Config) (ws : String) (filePath : Option String) : String :=
  match filePath with
  | some f => cfg.phpCommand ++ " " ++ cfg.command ++ " " ++ jsReplaceFirst f ws "."
  | none => cfg.phpCommand ++ " " ++ cfg.command

/-- Outcome of the execa subprocess call: success carries stdout; failure is
an ExecaError carrying the captured stdout and stderr texts (the empty string
stands for an absent or empty stream, both falsy); spawnError is any other
thrown error. -/
inductive ExecResult where
  | success (stdout : String)
  | failure (stdout : String) (stderr : String)
  | spawnError (message : String)
deriving DecidableEq

/-- What the try/catch of runAnalysis decides to do with the subprocess
result. -/
inductive ExecOutcome where
  | continueWith (outputText : String)
  | abortStderr (stderr : String)
  | abortSpawn (message : String)
deriving DecidableEq

/-- The try/catch of runAnalysis: success continues with stdout; an ExecaError
with stderr and no stdout surfaces the stderr text and returns early; an
ExecaError with stdout continues with that stdout; an ExecaError with neither
continues with the default output text; any other error returns early with
its message. -/
def classifyExec : ExecResult → ExecOutcome
  | .success out => .continueWith out
  | .failure stdout stderr =>
    if stderr != "" && stdout == "" then .abortStderr stderr
    else if stdout != "" then .continueWith stdout
    else .continueWith "\x7b\x7d"
  | .spawnError m => .abortSpawn m

/-- How one analysis pass ended. -/
inductive PassResult where
  | abortedStderr (message : String)
  | abortedSpawn (message : String)
  | parseFailed
  | typeError
  | singleDone (processed : Bool)
  | projectDone (message : String)
deriving DecidableEq

/-- A pass completed when it reached processOutput or handle. -/
def passCompleted : PassResult → Bool
  | .singleDone _ => true
  | .projectDone _ => true
  | _ => false

/-- The body of runAnalysis after the subprocess call, against a given store:
classify the execa result, JSON.parse the retained output text (parse is the
black-box parser; none is a thrown SyntaxError), evaluate the
Object.keys(output.files) test, which throws when files is absent, delete the
analyzed file when the report is empty and the store already had it, then
dispatch to processOutput (single-file) or handle (whole-project). -/
def runAnalysisStep (cfg : Config) (ws : String) (store : Store)
    (filePath : Option String) (res : ExecResult)
    (parse : String → Option RawOutput) : Store × PassResult :=
  match classifyExec res with
  | .abortStderr m => (store, .abortedStderr m)
  | .abortSpawn m => (store, .abortedSpawn m)
  | .continueWith txt =>
    match parse txt with
    | none => (store, .parseFailed)
    | some output =>
      match output.files with
      | none => (store, .typeError)
      | some files =>
        match filePath with
        | some f =>
          let store1 :=
            if files.isEmpty && storeHas store f then storeDelete store f else store
          ((processOutput cfg ws store1 files).1,
            .singleDone (processOutput cfg ws store1 files).2)
        | none =>
          ((handle cfg ws store files output.totalsFileErrors).1,
            .projectDone (handle cfg ws store files output.totalsFileErrors).2)

/-- A completed analysis pass, for store-evolution traces: the optional
single-file target, and the parsed report contents. -/
structure Pass where
  target : Option String
  files : List (String × FileResult)
  totalsFileErrors : Option Int
deriving DecidableEq

/-- Store effect of one completed pass: the single-file bookkeeping plus
processOutput for a single-file pass, handle for a whole-project pass. -/
def applyPass (cfg : Config) (ws : String) (store : Store) (p : Pass) : Store :=
  match p.target with
  | some f =>
    let store1 :=
      if p.files.isEmpty && storeHas store f then storeDelete store f else store
    (processOutput cfg ws store1 p.files).1
  | none => (handle cfg ws store p.files p.totalsFileErrors).1

/-- Store after a sequence of completed passes. -/
def runTrace (cfg : Config) (ws : String) (store : Store) (ps : List Pass) : Store :=
  ps.foldl (applyPass cfg ws) store

/-- A pass covers a store key when it is a whole-project pass, or when the key
is its single-file target, or when some report entry maps onto the key. -/
def coversFile (cfg : Config) (ws : String) (p : Pass) (k : String) : Bool :=
  match p.target with
  | none => true
  | some f =>
    f == k || p.files.any (fun q => jsReplaceFirst q.1 cfg.dockerVolumePath ws == k)

/-- Number of violations a pass reports for a store key. -/
def violationCountForKey (cfg : Config) (ws : String) (p : Pass) (k : String) : Nat :=
  (p.files.filter (fun q => jsReplaceFirst q.1 cfg.dockerVolumePath ws == k)).foldl
    (fun n q => n + (fileDiagnostics q.2).length) 0

/-- The most recent pass of a trace covering a key. -/
def lastCoveringPass (cfg : Config) (ws : String) (ps : List Pass) (k : String) :
    Option Pass :=
  ps.foldl (fun acc p => if coversFile cfg ws p k then some p else acc) none

/-- Follows the specification words for the single-file command argument: the
input file path with the workspace root removed from the front when it leads
the path. -/
def specRootRelativePath (ws f : String) : String :=
  if leadsWith ws.data f.data then String.mk (f.data.drop ws.data.length) else f

/-- Sample configuration with a docker volume path that occurs in no path. -/
def cfgA : Config := ⟨"php", "vendor/bin/phpstan analyse --error-format=json", "*.neon", "@@"⟩

/-- Sample violation. -/
def vA : Violation := ⟨"m", 1, "id", false⟩

/-- Sample files entry with one violation. -/
def frA : FileResult := ⟨some [vA]⟩

/-- Sample files entry whose messages array is present but empty. -/
def frEmpty : FileResult := ⟨some []⟩

/-- Whole-project pass flagging /w/F.php. -/
def passP1 : Pass := ⟨none, [("/w/F.php", frA)], some 1⟩

/-- Single-file pass on /w/F.php whose report mentions only /w/G.php. -/
def passP2 : Pass := ⟨some "/w/F.php", [("/w/G.php", frA)], some 1⟩

/-- Single-file pass on F whose report has one entry for F with zero
messages. -/
def passC3 : Pass := ⟨some "F", [("F", frEmpty)], some 0⟩

/-- Configuration of the end-to-end scenario: dockerVolumePath /app. -/
def cfgC4 : Config := ⟨"php", "vendor/bin/phpstan analyse --error-format=json", "*.neon", "/app"⟩

/-- Violation of the end-to-end scenario. -/
def vC4 : Violation := ⟨"Undefined method.", 10, "method.notFound", false⟩

/-- Files mapping of the end-to-end scenario. -/
def filesC4 : List (String × FileResult) := [("/app/src/Foo.php", ⟨some [vC4]⟩)]

theorem storeHas_nil (k : String) : storeHas [] k = false := rfl

theorem storeHas_cons (q : String × List Diagnostic) (rest : Store) (k : String) :
    storeHas (q :: rest) k = (q.1 == k || storeHas rest k) := by
  simp [storeHas]

theorem storeGet_cons (q : String × List Diagnostic) (rest : Store) (k : String) :
    storeGet (q :: rest) k = if q.1 = k then some q.2 else storeGet rest k := by
  unfold storeGet
  by_cases h : q.1 = k
  · rw [List.find?_cons_of_pos _ (by simpa using h), if_pos h]
    rfl
  · rw [List.find?_cons_of_neg _ (by simpa using h), if_neg h]

theorem storeSet_cons (q : String × List Diagnostic) (rest : Store) (k : String)
    (v : List Diagnostic) :
    storeSet (q :: rest) k v =
      if q.1 = k then (k, v) :: rest else q :: storeSet rest k v := by
  by_cases h : q.1 = k <;> simp [storeSet, h]

theorem storeDelete_nil (k : String) : storeDelete [] k = [] := rfl

theorem storeDelete_cons (q : String × List Diagnostic) (rest : Store) (k : String) :
    storeDelete (q :: rest) k =
      if q.1 = k then storeDelete rest k else q :: storeDelete rest k := by
  by_cases h : q.1 = k <;> simp [storeDelete, List.filter_cons, h]

theorem storeHas_storeSet (s : Store) (k k' : String) (v : List Diagnostic) :
    storeHas (storeSet s k v) k' = true ↔ k' = k ∨ storeHas s k' = true := by
  induction s with
  | nil =>
    rw [show storeSet [] k v = [(k, v)] from rfl, storeHas_cons, storeHas_nil]
    constructor
    · intro h
      simp only [Bool.or_eq_true, beq_iff_eq] at h
      rcases h with h | h
      · exact Or.inl h.symm
      · cases h
    · rintro (h | h)
      · subst h
        simp
      · cases h
  | cons q rest ih =>
    obtain ⟨qk, qv⟩ := q
    rw [storeSet_cons]
    by_cases h : qk = k
    · subst h
      rw [if_pos rfl, storeHas_cons, storeHas_cons]
      constructor
      · exact fun h => Or.inr h
      · rintro (h | h)
        · subst h
          simp
        · exact h
    · rw [if_neg h, storeHas_cons, storeHas_cons]
      simp only [Bool.or_eq_true] at ih ⊢
      rw [ih]
      tauto

theorem storeGet_storeSet_self (s : Store) (k : String) (v : List Diagnostic) :
    storeGet (storeSet s k v) k = some v := by
  induction s with
  | nil => simp [storeSet, storeGet]
  | cons q rest ih =>
    rw [storeSet_cons]
    by_cases h : q.1 = k
    · rw [if_pos h, storeGet_cons, if_pos rfl]
    · rw [if_neg h, storeGet_cons, if_neg h]
      exact ih

theorem storeGet_storeSet_ne (s : Store) (k k' : String) (v : List Diagnostic)
    (h : k' ≠ k) :
    storeGet (storeSet s k v) k' = storeGet s k' := by
  induction s with
  | nil => simp [storeSet, storeGet, List.find?, beq_eq_false_iff_ne.mpr (Ne.symm h)]
  | cons q rest ih =>
    rw [storeSet_cons]
    by_cases hq : q.1 = k
    · rw [if_pos hq, storeGet_cons, storeGet_cons, if_neg (Ne.symm h),
        if_neg (by rw [hq]; exact Ne.symm h)]
    · rw [if_neg hq, storeGet_cons, storeGet_cons]
      by_cases hk : q.1 = k'
      · rw [if_pos hk, if_pos hk]
      · rw [if_neg hk, if_neg hk]
        exact ih

theorem storeHas_storeDelete_self (s : Store) (k : String) :
    storeHas (storeDelete s k) k = false := by
  induction s with
  | nil => rfl
  | cons q rest ih =>
    rw [storeDelete_cons]
    by_cases h : q.1 = k
    · rw [if_pos h]; exact ih
    · rw [if_neg h, storeHas_cons, beq_eq_false_iff_ne.mpr h, Bool.false_or]
      exact ih

theorem storeGet_storeDelete_ne (s : Store) (k k' : String) (h : k' ≠ k) :
    storeGet (storeDelete s k) k' = storeGet s k' := by
  induction s with
  | nil => rfl
  | cons q rest ih =>
    rw [storeDelete_cons]
    by_cases hq : q.1 = k
    · rw [if_pos hq, storeGet_cons, if_neg (by rw [hq]; exact Ne.symm h)]
      exact ih
    · rw [if_neg hq, storeGet_cons, storeGet_cons]
      by_cases hk : q.1 = k'
      · rw [if_pos hk, if_pos hk]
      · rw [if_neg hk, if_neg hk]
        exact ih

theorem storeHas_insertAll (s l : Store) (k : String) :
    storeHas (insertAll s l) k = true ↔
      storeHas l k = true ∨ storeHas s k = true := by
  induction l generalizing s with
  | nil => simp [insertAll, storeHas]
  | cons q rest ih =>
    show storeHas (insertAll (storeSet s q.1 q.2) rest) k = true ↔ _
    rw [ih, storeHas_cons, storeHas_storeSet]
    simp only [Bool.or_eq_true, beq_iff_eq]
    tauto

theorem storeGet_insertAll_of_not_has (s l : Store) (k : String)
    (h : storeHas l k = false) :
    storeGet (insertAll s l) k = storeGet s k := by
  induction l generalizing s with
  | nil => rfl
  | cons q rest ih =>
    rw [storeHas_cons] at h
    simp only [Bool.or_eq_false_iff, beq_eq_false_iff_ne] at h
    show storeGet (insertAll (storeSet s q.1 q.2) rest) k = _
    rw [ih _ h.2, storeGet_storeSet_ne _ _ _ _ (fun hk => h.1 hk.symm)]

theorem storeHas_diagnosticsByFile_aux (cfg : Config) (ws : String)
    (files : List (String × FileResult)) (m : Store) (k : String) :
    storeHas (files.foldl (byFileStep cfg ws) m) k = true ↔
      storeHas m k = true ∨
        ∃ q ∈ files,
          jsReplaceFirst q.1 cfg.dockerVolumePath ws = k ∧ fileDiagnostics q.2 ≠ [] := by
  induction files generalizing m with
  | nil => simp
  | cons q rest ih =>
    rw [List.foldl_cons, ih]
    by_cases h : 0 < (fileDiagnostics q.2).length
    · rw [show byFileStep cfg ws m q =
          storeSet m (jsReplaceFirst q.1 cfg.dockerVolumePath ws) (fileDiagnostics q.2)
        from by rw [byFileStep, if_pos h]]
      rw [storeHas_storeSet]
      constructor
      · rintro ((h1 | h1) | h1)
        · exact Or.inr ⟨q, List.mem_cons_self _ _, h1.symm, List.ne_nil_of_length_pos h⟩
        · exact Or.inl h1
        · obtain ⟨w, hw, hww⟩ := h1
          exact Or.inr ⟨w, List.mem_cons_of_mem _ hw, hww⟩
      · rintro (h1 | h1)
        · exact Or.inl (Or.inr h1)
        · obtain ⟨w, hw, hk, hne⟩ := h1
          rcases List.mem_cons.mp hw with hw | hw
          · subst hw
            exact Or.inl (Or.inl hk.symm)
          · exact Or.inr ⟨w, hw, hk, hne⟩
    · rw [show byFileStep cfg ws m q = m from by rw [byFileStep, if_neg h]]
      constructor
      · rintro (h1 | h1)
        · exact Or.inl h1
        · obtain ⟨w, hw, hww⟩ := h1
          exact Or.inr ⟨w, List.mem_cons_of_mem _ hw, hww⟩
      · rintro (h1 | h1)
        · exact Or.inl h1
        · obtain ⟨w, hw, hk, hne⟩ := h1
          rcases List.mem_cons.mp hw with hw | hw
          · subst hw
            exact absurd (List.length_pos.mpr hne) h
          · exact Or.inr ⟨w, hw, hk, hne⟩

theorem storeHas_diagnosticsByFile (cfg : Config) (ws : String)
    (files : List (String × FileResult)) (k : String) :
    storeHas (diagnosticsByFile cfg ws files) k = true ↔
      ∃ q ∈ files,
        jsReplaceFirst q.1 cfg.dockerVolumePath ws = k ∧ fileDiagnostics q.2 ≠ [] := by
  rw [diagnosticsByFile, storeHas_diagnosticsByFile_aux]
  simp [storeHas]

theorem storeAllNonempty_nil : storeAllNonempty [] := by
  intro q hq
  cases hq

theorem storeAllNonempty_storeSet (s : Store) (k : String) (v : List Diagnostic)
    (hs : storeAllNonempty s) (hv : v ≠ []) : storeAllNonempty (storeSet s k v) := by
  induction s with
  | nil =>
    intro q hq
    rcases List.mem_singleton.mp hq with h
    subst h
    exact hv
  | cons p rest ih =>
    rw [storeSet_cons]
    have hrest : storeAllNonempty rest := fun q hq => hs q (List.mem_cons_of_mem _ hq)
    by_cases h : p.1 = k
    · rw [if_pos h]
      intro q hq
      rcases List.mem_cons.mp hq with hq | hq
      · subst hq
        exact hv
      · exact hrest q hq
    · rw [if_neg h]
      intro q hq
      rcases List.mem_cons.mp hq with hq | hq
      · subst hq
        exact hs q (List.mem_cons_self _ _)
      · exact ih hrest q hq

theorem storeAllNonempty_storeDelete (s : Store) (k : String)
    (hs : storeAllNonempty s) : storeAllNonempty (storeDelete s k) := by
  intro q hq
  exact hs q (List.mem_of_mem_filter hq)

theorem storeAllNonempty_insertAll (s l : Store)
    (hs : storeAllNonempty s) (hl : storeAllNonempty l) :
    storeAllNonempty (insertAll s l) := by
  induction l generalizing s with
  | nil => exact hs
  | cons q rest ih =>
    show storeAllNonempty (insertAll (storeSet s q.1 q.2) rest)
    exact ih _
      (storeAllNonempty_storeSet _ _ _ hs (hl q (List.mem_cons_self _ _)))
      (fun w hw => hl w (List.mem_cons_of_mem _ hw))

theorem storeAllNonempty_diagnosticsByFile_aux (cfg : Config) (ws : String)
    (files : List (String × FileResult)) (m : Store) (hm : storeAllNonempty m) :
    storeAllNonempty (files.foldl (byFileStep cfg ws) m) := by
  induction files generalizing m with
  | nil => exact hm
  | cons q rest ih =>
    rw [List.foldl_cons]
    refine ih _ ?_
    rw [byFileStep]
    by_cases h : 0 < (fileDiagnostics q.2).length
    · rw [if_pos h]
      exact storeAllNonempty_storeSet _ _ _ hm (List.ne_nil_of_length_pos h)
    · rw [if_neg h]
      exact hm

theorem storeAllNonempty_processOutput (cfg : Config) (ws : String) (store : Store)
    (files : List (String × FileResult)) (hs : storeAllNonempty store) :
    storeAllNonempty (processOutput cfg ws store files).1 := by
  rw [processOutput]
  by_cases h : files.isEmpty
  · rw [if_pos h]
    exact hs
  · rw [if_neg h]
    exact storeAllNonempty_insertAll _ _ hs
      (storeAllNonempty_diagnosticsByFile_aux cfg ws files [] storeAllNonempty_nil)

theorem storeAllNonempty_handle (cfg : Config) (ws : String) (store : Store)
    (files : List (String × FileResult)) (totals : Option Int) :
    storeAllNonempty (handle cfg ws store files totals).1 :=
  storeAllNonempty_processOutput cfg ws [] files storeAllNonempty_nil

theorem storeAllNonempty_applyPass (cfg : Config) (ws : String) (store : Store)
    (p : Pass) (hs : storeAllNonempty store) :
    storeAllNonempty (applyPass cfg ws store p) := by
  rw [applyPass]
  cases p.target with
  | none => exact storeAllNonempty_handle cfg ws store p.files p.totalsFileErrors
  | some f =>
    refine storeAllNonempty_processOutput cfg ws _ _ ?_
    by_cases h : p.files.isEmpty && storeHas store f
    · rw [if_pos h]
      exact storeAllNonempty_storeDelete _ _ hs
    · rw [if_neg h]
      exact hs

theorem storeAllNonempty_runTrace (cfg : Config) (ws : String) (store : Store)
    (ps : List Pass) (hs : storeAllNonempty store) :
    storeAllNonempty (runTrace cfg ws store ps) := by
  induction ps generalizing store with
  | nil => exact hs
  | cons p rest ih =>
    exact ih _ (storeAllNonempty_applyPass cfg ws store p hs)

theorem leadsWith_append_self (p t : List Char) : leadsWith p (p ++ t) = true := by
  induction p with
  | nil => rfl
  | cons c cs ih => simp [leadsWith, ih]

theorem dropLenAppend (l t : List Char) : (l ++ t).drop l.length = t := by
  induction l with
  | nil => rfl
  | cons c cs ih => simp [ih]

theorem replFirstAux_leading (p r t : List Char) (hp : p ≠ []) :
    replFirstAux p r (p ++ t) = r ++ t := by
  cases p with
  | nil => exact absurd rfl hp
  | cons c cs =>
    have hl : leadsWith (c :: cs) (c :: (cs ++ t)) = true := by
      have := leadsWith_append_self (c :: cs) t
      simpa using this
    rw [List.cons_append, replFirstAux, if_pos hl, ← List.cons_append,
      show ((c :: cs) ++ t).drop (c :: cs).length = t from dropLenAppend _ _]

theorem jsReplaceFirst_leading (ws rest : String) (h : ws ≠ "") :
    jsReplaceFirst (ws ++ rest) ws "." = "." ++ rest := by
  obtain ⟨wl⟩ := ws
  obtain ⟨rl⟩ := rest
  cases wl with
  | nil => exact absurd rfl h
  | cons c cs =>
    rw [jsReplaceFirst]
    rw [if_neg (by simp)]
    show String.mk (replFirstAux (c :: cs) ['.'] ((c :: cs) ++ rl)) = _
    rw [replFirstAux_leading _ _ _ (by simp)]
    rfl

theorem jsReplaceFirst_empty_pat (p w : String) : jsReplaceFirst p "" w = w ++ p := rfl

theorem jsReplaceFirst_mid (b w : String) :
    jsReplaceFirst ("/x/app" ++ b) "/app" w = "/x" ++ w ++ b := by
  obtain ⟨bl⟩ := b
  obtain ⟨wl⟩ := w
  rfl

/-- C1 counterexample: the claimed store invariant fails for single-file
passes. After a whole-project pass flagging /w/F.php and then a single-file
pass targeting /w/F.php whose report mentions only /w/G.php, the store still
holds /w/F.php, although the most recent pass covering that file (the
single-file pass, which is the last pass of the trace) produced zero
violations for it. -/
theorem c1_store_invariant_counterexample :
    storeHas (runTrace cfgA "/w" [] [passP1, passP2]) "/w/F.php" = true ∧
    lastCoveringPass cfgA "/w" [passP1, passP2] "/w/F.php" = some passP2 ∧
    violationCountForKey cfgA "/w" passP2 "/w/F.php" = 0 := by decide

theorem storeHas_handle_iff (cfg : Config) (ws : String) (store : Store)
    (files : List (String × FileResult)) (totals : Option Int) (k : String) :
    storeHas (handle cfg ws store files totals).1 k = true ↔
      ∃ q ∈ files,
        jsReplaceFirst q.1 cfg.dockerVolumePath ws = k ∧ fileDiagnostics q.2 ≠ [] := by
  by_cases hf : files.isEmpty
  · have he : files = [] := List.isEmpty_iff.mp hf
    subst he
    show storeHas (processOutput cfg ws [] []).1 k = true ↔ _
    simp [processOutput, storeHas]
  · show storeHas (processOutput cfg ws [] files).1 k = true ↔ _
    rw [processOutput, if_neg (by simp [hf])]
    show storeHas (insertAll [] (diagnosticsByFile cfg ws files)) k = true ↔ _
    rw [storeHas_insertAll, storeHas_diagnosticsByFile]
    simp [storeHas]

/-- C1 (amended): after any completed whole-project analysis pass, a file
path appears in the store if and only if some entry of that report maps to
it with at least one violation; and along any trace of completed passes from
the empty store, no entry ever holds an empty diagnostic list. The original
claim fails for single-file passes whose nonempty report omits the target
file (see the counterexample). -/
theorem c1_store_invariant_amended (cfg : Config) (ws : String) :
    (∀ store files totals k,
      storeHas (handle cfg ws store files totals).1 k = true ↔
        ∃ q ∈ files,
          jsReplaceFirst q.1 cfg.dockerVolumePath ws = k ∧ fileDiagnostics q.2 ≠ []) ∧
    (∀ ps q, q ∈ runTrace cfg ws [] ps → q.2 ≠ []) := by
  constructor
  · exact fun store files totals k => storeHas_handle_iff cfg ws store files totals k
  · intro ps q hq
    exact storeAllNonempty_runTrace cfg ws [] ps storeAllNonempty_nil q hq

/-- C1 witness: the amended invariant applied at a concrete whole-project
pass. -/
theorem c1_store_invariant_amended_witness :
    storeHas (handle cfgA "/w" [("stale", [violationToDiagnostic vA])]
      [("/w/F.php", frA)] (some 1)).1 "/w/F.php" = true :=
  ((c1_store_invariant_amended cfgA "/w").1 [("stale", [violationToDiagnostic vA])]
      [("/w/F.php", frA)] (some 1) "/w/F.php").mpr
    ⟨("/w/F.php", frA), List.mem_singleton.mpr rfl, by decide, by decide⟩

/-- C2: replace-mode application (handle) clears the prior store
unconditionally, so its result is independent of the prior contents; a
report with an empty files mapping leaves the store empty; and a previously
flagged file to which no report entry maps has no entry afterwards. -/
theorem c2_replace_mode_clears (cfg : Config) (ws : String) (store store' : Store)
    (files : List (String × FileResult)) (totals : Option Int) :
    (handle cfg ws store files totals).1 = (handle cfg ws store' files totals).1 ∧
    (handle cfg ws store [] totals).1 = [] ∧
    (∀ k, (∀ q ∈ files, jsReplaceFirst q.1 cfg.dockerVolumePath ws ≠ k) →
      storeHas (handle cfg ws store files totals).1 k = false) := by
  refine ⟨rfl, rfl, ?_⟩
  intro k hk
  rw [← Bool.not_eq_true]
  intro hcontra
  rw [storeHas_handle_iff cfg ws store files totals k] at hcontra
  obtain ⟨q, hq, hmap, hne⟩ := hcontra
  exact hk q hq hmap

/-- C2 witness: a stale entry disappears after a whole-project pass whose
report does not map to it. -/
theorem c2_replace_mode_clears_witness :
    storeHas (handle cfgA "/w" [("stale", [violationToDiagnostic vA])]
      [("/w/F.php", frA)] (some 1)).1 "stale" = false :=
  (c2_replace_mode_clears cfgA "/w" [("stale", [violationToDiagnostic vA])] []
      [("/w/F.php", frA)] (some 1)).2.2 "stale" (by decide)

/-- C3 counterexample: the deletion test is an empty files mapping, not zero
files with findings. A single-file report whose only entry carries zero
findings is not an empty files mapping, so the previously stored entry of
the target file is not deleted, contrary to the claim. -/
theorem c3_single_file_counterexample :
    passC3.files.all (fun q => (fileDiagnostics q.2).isEmpty) = true ∧
    storeHas (applyPass cfgA "/w" [("F", [violationToDiagnostic vA])] passC3) "F" = true := by
  decide

/-- C3 (amended): for a single-file pass, the delete decision reads the
store state from before the pass; a report whose files mapping is entirely
empty deletes the target entry when it was present; and a single-file report
containing only a different (mapped) file path leaves the target entry
unchanged. -/
theorem c3_single_file_bookkeeping (cfg : Config) (ws : String) (store : Store)
    (f : String) (totals : Option Int) :
    (storeHas store f = true →
      applyPass cfg ws store ⟨some f, [], totals⟩ = storeDelete store f ∧
      storeHas (applyPass cfg ws store ⟨some f, [], totals⟩) f = false) ∧
    (∀ g fr, jsReplaceFirst g cfg.dockerVolumePath ws ≠ f →
      storeGet (applyPass cfg ws store ⟨some f, [(g, fr)], totals⟩) f = storeGet store f) := by
  constructor
  · intro h
    have e1 : applyPass cfg ws store ⟨some f, [], totals⟩ = storeDelete store f := by
      show (processOutput cfg ws
        (if List.isEmpty [] && storeHas store f then storeDelete store f else store) []).1 = _
      rw [h]
      show (processOutput cfg ws (storeDelete store f) []).1 = _
      rfl
    exact ⟨e1, by rw [e1]; exact storeHas_storeDelete_self store f⟩
  · intro g fr hgf
    have hb : storeHas (diagnosticsByFile cfg ws [(g, fr)]) f = false := by
      rw [← Bool.not_eq_true, storeHas_diagnosticsByFile]
      rintro ⟨q, hq, hk, hne⟩
      rcases List.mem_singleton.mp hq with rfl
      exact hgf hk
    show storeGet (processOutput cfg ws
      (if List.isEmpty [(g, fr)] && storeHas store f then storeDelete store f else store)
      [(g, fr)]).1 f = _
    show storeGet (processOutput cfg ws store [(g, fr)]).1 f = _
    rw [processOutput, if_neg (by simp)]
    exact storeGet_insertAll_of_not_has store _ f hb

/-- C3 witness: an empty report deletes the previously present target
entry. -/
theorem c3_single_file_bookkeeping_witness :
    storeHas (applyPass cfgA "/w" [("F", [violationToDiagnostic vA])]
      ⟨some "F", [], some 0⟩) "F" = false :=
  ((c3_single_file_bookkeeping cfgA "/w" [("F", [violationToDiagnostic vA])] "F"
    (some 0)).1 (by decide)).2

/-- C4 counterexample: in the end-to-end scenario the sole record ends at
column 17, the length of the message text, not at column 16 as claimed. -/
theorem c4_end_to_end_counterexample :
    (storeGet (handle cfgC4 "/home/user/proj" [] filesC4 (some 1)).1
        "/home/user/proj/src/Foo.php").map (fun l => l.map (fun d => d.endChar)) ≠
      some [16] := by
  decide

/-- C4 (amended): applying the end-to-end report with dockerVolumePath /app
and workspace root /home/user/proj yields exactly one store entry keyed
/home/user/proj/src/Foo.php, holding exactly one record at line 9, column
range 0 to 17, severity error, with a reference link ending in
method.notFound. -/
theorem c4_end_to_end_amended :
    (handle cfgC4 "/home/user/proj" [] filesC4 (some 1)).1 =
      [("/home/user/proj/src/Foo.php", [violationToDiagnostic vC4])] ∧
    (violationToDiagnostic vC4).startLine = 9 ∧
    (violationToDiagnostic vC4).startChar = 0 ∧
    (violationToDiagnostic vC4).endLine = 9 ∧
    (violationToDiagnostic vC4).endChar = 17 ∧
    (violationToDiagnostic vC4).severity = Severity.error ∧
    strEndsWith (violationToDiagnostic vC4).codeTarget "method.notFound" = true := by
  decide

/-- C5: for every violation with line field L, the produced diagnostic
record has zero-based line max(0, L-1) as both its range start and end line;
in particular L = 0 and L = 1 both yield line 0. -/
theorem c5_line_mapping (v : Violation) (m i : String) (b : Bool) :
    (violationToDiagnostic v).startLine = max 0 (v.line - 1) ∧
    (violationToDiagnostic v).endLine = max 0 (v.line - 1) ∧
    fileDiagnostics ⟨some [v]⟩ = [violationToDiagnostic v] ∧
    (violationToDiagnostic ⟨m, 0, i, b⟩).startLine = 0 ∧
    (violationToDiagnostic ⟨m, 1, i, b⟩).startLine = 0 := by
  refine ⟨rfl, rfl, rfl, ?_, ?_⟩
  · show max (0 : Int) (0 - 1) = 0
    decide
  · show max (0 : Int) (1 - 1) = 0
    decide

/-- C6 counterexample: the single-file command replaces the workspace root
occurrence with a dot rather than removing the root, so the constructed
command differs from the one built with the root-removed path of the claim. -/
theorem c6_command_counterexample :
    prepareCommand cfgA "/w" (some "/w/a.php") =
      cfgA.phpCommand ++ " " ++ cfgA.command ++ " " ++ "./a.php" ∧
    specRootRelativePath "/w" "/w/a.php" = "/a.php" ∧
    prepareCommand cfgA "/w" (some "/w/a.php") ≠
      cfgA.phpCommand ++ " " ++ cfgA.command ++ " " ++ specRootRelativePath "/w" "/w/a.php" := by
  decide

/-- C6 (amended): the command line is phpCommand plus command in
whole-project mode; in single-file mode it appends the file path with its
leading workspace-root occurrence replaced by a dot, giving a dot-led
root-relative path. -/
theorem c6_command_construction (cfg : Config) (ws rest : String) (h : ws ≠ "") :
    prepareCommand cfg ws none = cfg.phpCommand ++ " " ++ cfg.command ∧
    prepareCommand cfg ws (some (ws ++ rest)) =
      cfg.phpCommand ++ " " ++ cfg.command ++ " " ++ ("." ++ rest) := by
  refine ⟨rfl, ?_⟩
  show cfg.phpCommand ++ " " ++ cfg.command ++ " " ++ jsReplaceFirst (ws ++ rest) ws "." = _
  rw [jsReplaceFirst_leading ws rest h]

/-- C6 witness: the amended command construction at a concrete path. -/
theorem c6_command_construction_witness :
    prepareCommand cfgA "/w" (some ("/w" ++ "/a.php")) =
      cfgA.phpCommand ++ " " ++ cfgA.command ++ " " ++ ("." ++ "/a.php") :=
  (c6_command_construction cfgA "/w" "/a.php" (by decide)).2

/-- C7: an invocation failure with captured stderr and no stdout surfaces
the stderr text and aborts the pass with the store unchanged; and for every
invocation failure with stdout present, whatever its stderr (empty or not),
the pass behaves exactly like a successful invocation with that stdout. -/
theorem c7_error_classification (cfg : Config) (ws : String) (store : Store)
    (fp : Option String) (parse : String → Option RawOutput) (e s : String)
    (hs : s ≠ "") :
    (e ≠ "" →
      runAnalysisStep cfg ws store fp (.failure "" e) parse = (store, .abortedStderr e)) ∧
    runAnalysisStep cfg ws store fp (.failure s e) parse =
      runAnalysisStep cfg ws store fp (.success s) parse := by
  have h3 : (s != "") = true := bne_iff_ne.mpr hs
  have h2 : (s == "") = false := beq_eq_false_iff_ne.mpr hs
  constructor
  · intro he
    have h1 : (e != "") = true := bne_iff_ne.mpr he
    have hc : classifyExec (.failure "" e) = .abortStderr e := by
      rw [classifyExec, if_pos (by rw [h1]; rfl)]
    rw [runAnalysisStep, hc]
  · have hc : classifyExec (.failure s e) = .continueWith s := by
      rw [classifyExec, if_neg (by rw [h2, Bool.and_false]; simp), if_pos h3]
    have hc2 : classifyExec (.success s) = .continueWith s := rfl
    rw [runAnalysisStep, hc, runAnalysisStep, hc2]

/-- C7 witness: a concrete stderr-only failure aborts with the stderr text
and an unchanged empty store, and a concrete failure carrying stdout with an
empty stderr (the usual analyzer exit-code-1 case) behaves exactly like a
success with that stdout. -/
theorem c7_error_classification_witness :
    runAnalysisStep cfgA "/w" [] none (.failure "" "boom") (fun _ => none) =
      ([], .abortedStderr "boom") ∧
    runAnalysisStep cfgA "/w" [] none (.failure "json" "") (fun _ => none) =
      runAnalysisStep cfgA "/w" [] none (.success "json") (fun _ => none) :=
  ⟨(c7_error_classification cfgA "/w" [] none (fun _ => none) "boom" "x"
      (by decide)).1 (by decide),
   (c7_error_classification cfgA "/w" [] none (fun _ => none) "" "json"
      (by decide)).2⟩

/-- C8: atomicity on failure. Whenever an analysis pass does not complete
(stderr-only tool failure, spawn failure, JSON parse failure, or a report
without a files mapping), the diagnostic store is left exactly as it was
before the pass began. -/
theorem c8_atomic_on_failure (cfg : Config) (ws : String) (store : Store)
    (fp : Option String) (res : ExecResult) (parse : String → Option RawOutput)
    (h : passCompleted (runAnalysisStep cfg ws store fp res parse).2 = false) :
    (runAnalysisStep cfg ws store fp res parse).1 = store := by
  rw [runAnalysisStep] at h ⊢
  cases hc : classifyExec res with
  | abortStderr m => rfl
  | abortSpawn m => rfl
  | continueWith txt =>
    rw [hc] at h
    dsimp only at h ⊢
    cases hp : parse txt with
    | none => rfl
    | some output =>
      rw [hp] at h
      dsimp only at h ⊢
      cases hf : output.files with
      | none => rfl
      | some files =>
        rw [hf] at h
        cases fp with
        | none => simp [passCompleted] at h
        | some f => simp [passCompleted] at h

/-- C8 witness: a concrete spawn failure leaves a nonempty store
untouched. -/
theorem c8_atomic_on_failure_witness :
    (runAnalysisStep cfgA "/w" [("F", [violationToDiagnostic vA])] none
      (.spawnError "boom") (fun _ => none)).1 = [("F", [violationToDiagnostic vA])] :=
  c8_atomic_on_failure cfgA "/w" [("F", [violationToDiagnostic vA])] none
    (.spawnError "boom") (fun _ => none) (by decide)

/-- C9: whole-project status message. A totals.file_errors of 0 or an
absent totals field gives the message done; a positive count N gives
found N violations. -/
theorem c9_status_message (cfg : Config) (ws : String) (store : Store)
    (files : List (String × FileResult)) (n : Int) (hn : 0 < n) :
    (handle cfg ws store files none).2 = "done" ∧
    (handle cfg ws store files (some 0)).2 = "done" ∧
    (handle cfg ws store files (some n)).2 =
      "found " ++ toString n ++ " violations" := by
  refine ⟨rfl, rfl, ?_⟩
  show (if 0 < n then "found " ++ toString n ++ " violations" else "done") = _
  rw [if_pos hn]

/-- C9 witness: three file errors give the message found 3 violations. -/
theorem c9_status_message_witness :
    (handle cfgA "/w" [] [] (some 3)).2 = "found 3 violations" :=
  (c9_status_message cfgA "/w" [] [] 3 (by decide)).2.2

/-- C10: store keys come from a single first-occurrence replacement of the
configured dockerVolumePath by the workspace root: a single-entry report
with findings is stored under exactly that rewritten key; an empty
dockerVolumePath prepends the workspace root to the reported path; and an
occurrence of the pattern in the middle of a path is rewritten too, first
occurrence only. -/
theorem c10_key_mapping (cfg : Config) (ws : String) (fp : String) (fr : FileResult)
    (h : fileDiagnostics fr ≠ []) (p b w : String) :
    (processOutput cfg ws [] [(fp, fr)]).1 =
      [(jsReplaceFirst fp cfg.dockerVolumePath ws, fileDiagnostics fr)] ∧
    jsReplaceFirst p "" w = w ++ p ∧
    jsReplaceFirst ("/x/app" ++ b) "/app" w = "/x" ++ w ++ b := by
  refine ⟨?_, jsReplaceFirst_empty_pat p w, jsReplaceFirst_mid b w⟩
  have hl : 0 < (fileDiagnostics fr).length := List.length_pos.mpr h
  rw [processOutput, if_neg (by simp)]
  show insertAll [] (diagnosticsByFile cfg ws [(fp, fr)]) = _
  rw [diagnosticsByFile, List.foldl_cons, List.foldl_nil, byFileStep, if_pos hl]
  rfl

/-- C10 witness: the key mapping law at a concrete report entry. -/
theorem c10_key_mapping_witness :
    (processOutput cfgA "/w" [] [("/w/F.php", frA)]).1 =
      [(jsReplaceFirst "/w/F.php" cfgA.dockerVolumePath "/w", fileDiagnostics frA)] :=
  (c10_key_mapping cfgA "/w" "/w/F.php" frA (by decide) "p" "b" "w").1

theorem runAnalysisStep_success_applyPass (cfg : Config) (ws : String) (store : Store)
    (p : Pass) (parse : String → Option RawOutput) (txt : String)
    (hp : parse txt = some ⟨some p.files, p.totalsFileErrors⟩) :
    (runAnalysisStep cfg ws store p.target (.success txt) parse).1 =
      applyPass cfg ws store p := by
  rw [runAnalysisStep]
  dsimp only [classifyExec]
  rw [hp]
  dsimp only
  rw [applyPass]
  cases ht : p.target with
  | none => rfl
  | some f => rfl
